import Mathlib

/-!
Verification development for the Spectrophotometer-Reader application
(`src/app.py`).  The Python source is shallowly embedded: each Python
function that the claims mention is translated into an executable Lean
definition operating on lists of characters, strings, rationals and an
explicit numeric-value type that models Python/pandas floating values
(finite value, plus infinity, minus infinity, NaN) at the level of the
string-parsing pipeline, where no rounding behaviour is involved.
-/

/-! ## Symbol maps (`default_symbol_map`, `convert_digits_to_symbols`) -/

/-- A Python `dict` mapping strings to strings, in insertion order.
Keys are unique in an actual `dict`; where uniqueness matters it is an
explicit hypothesis. -/
abbrev SymbolMap := List (String × String)

/-- The one-character string holding `c`. -/
def charStr (c : Char) : String := String.mk [c]

/-- Python `d.get(k, dflt)` without its default: the value stored at key
`k`, if any (first occurrence; real dicts hold each key once). -/
def dictGet (m : SymbolMap) (k : String) : Option String :=
  (m.find? (fun p => p.1 == k)).map (fun p => p.2)

/-- Insertion `d[k] = v` into an insertion-ordered dict: overwrite in
place when the key exists, otherwise append. -/
def dictInsert (m : SymbolMap) (k v : String) : SymbolMap :=
  if m.any (fun p => p.1 == k) then
    m.map (fun p => if p.1 == k then (k, v) else p)
  else m ++ [(k, v)]

/-- Line 27 of `app.py`: `reversed_map = {v: k for k, v in symbol_map.items()}`.
A Python dict comprehension inserts in iteration order, a later duplicate
value overwriting the earlier one. -/
def reversedMap (m : SymbolMap) : SymbolMap :=
  m.foldl (fun r p => dictInsert r p.2 p.1) []

/-- One substitution pass, lines 25 and 28 of `app.py`:
`''.join(map.get(char, char) for char in text)`.  Each character is looked
up (as a one-character string); a hit contributes the stored string, a
miss contributes the character itself. -/
def substitutePass (m : SymbolMap) (text : List Char) : List Char :=
  (text.map (fun c => ((dictGet m (charStr c)).getD (charStr c)).data)).flatten

/-- Lines 22-28 of `app.py` (`convert_digits_to_symbols`): replace each
character by its glyph per `symbol_map`, then replace each character of
the result by its source character per the reversed map. -/
def convert_digits_to_symbols (text : List Char) (m : SymbolMap) : List Char :=
  substitutePass (reversedMap m) (substitutePass m text)

/-- Lines 8-20 of `app.py`: the compiled-in default number-to-symbol map. -/
def default_symbol_map : SymbolMap :=
  [("0", "°"), ("1", "1"), ("2", "2"), ("3", "³"), ("4", "4"), ("5", "µ"),
   ("6", "¶"), ("7", "7"), ("8", "8"), ("9", "¹"), (".", "®")]

/-- The eleven permitted source characters of a symbol map, as
one-character strings. -/
def allowedKeys : List String :=
  ["0", "1", "2", "3", "4", "5", "6", "7", "8", "9", "."]

/-- The mapping is injective: no two entries share a glyph. -/
abbrev injectiveMap (m : SymbolMap) : Prop := (m.map Prod.snd).Nodup

/-- Every key of the map is one of the eleven permitted source characters. -/
abbrev keysAllowed (m : SymbolMap) : Prop := ∀ p ∈ m, p.1 ∈ allowedKeys

/-- Every glyph of the map is a single character. -/
abbrev singleGlyphs (m : SymbolMap) : Prop := ∀ p ∈ m, p.2.length = 1

/-- The value a user typed into the sidebar symbol-map editor, after
`eval` (line 91 of `app.py`): either a dict literal, or something that is
not a dict (including the case where `eval` itself raised). -/
inductive ConfigInput where
  | dict (m : SymbolMap)
  | other
  deriving Repr

/-- Lines 89-96 of `app.py`: the only validation applied to the
user-supplied mapping is `isinstance(symbol_map, dict)` inside a
`try`/`except`; any dict passes and is used, anything else falls back to
`default_symbol_map` with a sidebar error.  The boolean records whether
the fallback (and its warning) happened. -/
def buildSymbolMap : ConfigInput → SymbolMap × Bool
  | .dict m => (m, false)
  | .other => (default_symbol_map, true)

/-! ## Python text primitives used by `process_txt_file` -/

/-- The characters Python's `str.split()` / `str.strip()` treat as
whitespace (ASCII whitespace, the C1 separators, and the Unicode space
characters). -/
def pyWhitespace : List Char :=
  [' ', '\t', '\n', '\x0b', '\x0c', '\r', '\x1c', '\x1d', '\x1e', '\x1f',
   '\x85', '\xa0', ' ', ' ', ' ', ' ', ' ',
   ' ', ' ', ' ', ' ', ' ', ' ', ' ',
   ' ', ' ', ' ', ' ', '　']

/-- Whether Python treats `c` as whitespace. -/
def pyIsSpace (c : Char) : Bool := pyWhitespace.contains c

/-- The characters at which Python's `str.splitlines()` breaks a line
(besides the two-character sequence `\r\n`, handled separately). -/
def pyLineBreaks : List Char :=
  ['\n', '\r', '\x0b', '\x0c', '\x1c', '\x1d', '\x1e', '\x85', ' ', ' ']

/-- Whether `c` terminates a line for `str.splitlines()`. -/
def pyIsLineBreak (c : Char) : Bool := pyLineBreaks.contains c

/-- Worker for `str.splitlines()`: `acc` holds the current line reversed. -/
def pySplitLinesAux : List Char → List Char → List (List Char)
  | [], acc => if acc.isEmpty then [] else [acc.reverse]
  | '\r' :: '\n' :: rest, acc => acc.reverse :: pySplitLinesAux rest []
  | c :: rest, acc =>
    if pyIsLineBreak c then acc.reverse :: pySplitLinesAux rest []
    else pySplitLinesAux rest (c :: acc)

/-- Python `content.splitlines()`: split at line terminators (`\r\n`
counting once), with no empty trailing line after a final terminator. -/
def pySplitLines (content : List Char) : List (List Char) :=
  pySplitLinesAux content []

/-- Worker for `str.split()`: `acc` holds the current token reversed. -/
def pySplitAux : List Char → List Char → List (List Char)
  | [], acc => if acc.isEmpty then [] else [acc.reverse]
  | c :: rest, acc =>
    if pyIsSpace c then
      if acc.isEmpty then pySplitAux rest []
      else acc.reverse :: pySplitAux rest []
    else pySplitAux rest (c :: acc)

/-- Python `line.split()` with no argument: split on runs of whitespace,
producing no empty tokens. -/
def pySplit (line : List Char) : List (List Char) :=
  pySplitAux line []

/-- Python truthiness of `line.strip()`: the line has a non-whitespace
character. -/
def pyStripNonEmpty (line : List Char) : Bool :=
  line.any (fun c => !(pyIsSpace c))

/-! ## Numeric values (`pd.to_numeric` model) -/

/-- The result of coercing one token with `pd.to_numeric(..., errors="coerce")`:
a finite value (represented exactly as a rational, since only decimal
strings are parsed here), one of the two floating infinities, or NaN
(which is also what a failed coercion yields under `errors="coerce"`). -/
inductive NumVal where
  | fin (q : ℚ)
  | pinf
  | ninf
  | nan
  deriving DecidableEq, Repr

/-- Whether the value is NaN (the only thing `dropna` removes). -/
def NumVal.isNan : NumVal → Bool
  | .nan => true
  | _ => false

/-- Nat value of a decimal digit character. -/
def digitVal (c : Char) : Nat := c.toNat - 48

/-- Decimal digits to a natural number, most significant first. -/
def digitsToNat (ds : List Char) : Nat :=
  ds.foldl (fun n c => 10 * n + digitVal c) 0

/-- Optional leading sign; returns (isNegative, rest). -/
def parseSign : List Char → Bool × List Char
  | '+' :: rest => (false, rest)
  | '-' :: rest => (true, rest)
  | cs => (false, cs)

/-- Case-insensitive comparison against a lowercase reference word. -/
def lowerEq (cs : List Char) (word : List Char) : Bool :=
  cs.map Char.toLower == word

/-- Exponent suffix of a float literal: empty, or `e`/`E`, optional sign,
one or more digits, end of token.  Returns the scaled value. -/
def parseExponent (base : ℚ) : List Char → Option ℚ
  | [] => some base
  | e :: rest =>
    if e = 'e' ∨ e = 'E' then
      let s := parseSign rest
      let ds := s.2.takeWhile Char.isDigit
      let rest2 := s.2.dropWhile Char.isDigit
      if ds.isEmpty ∨ !rest2.isEmpty then none
      else if s.1 then some (base / (10 : ℚ) ^ digitsToNat ds)
      else some (base * (10 : ℚ) ^ digitsToNat ds)
    else none

/-- Unsigned decimal mantissa with optional fraction, then exponent:
`digits [. digits] | . digits`, requiring at least one digit overall. -/
def parseDecimal (cs : List Char) : Option ℚ :=
  let ip := cs.takeWhile Char.isDigit
  let rest := cs.dropWhile Char.isDigit
  match rest with
  | '.' :: rest2 =>
    let fp := rest2.takeWhile Char.isDigit
    let rest3 := rest2.dropWhile Char.isDigit
    if ip.isEmpty ∧ fp.isEmpty then none
    else parseExponent
      ((digitsToNat ip : ℚ) + (digitsToNat fp : ℚ) / (10 : ℚ) ^ fp.length) rest3
  | _ => if ip.isEmpty then none else parseExponent (digitsToNat ip : ℚ) rest

/-- Model of `pd.to_numeric(token, errors="coerce")` on one string cell:
whitespace is trimmed, an optional sign is read, then either a decimal
float literal, an infinity word, or a NaN word; everything else coerces
to NaN.  (The pandas tokenizer `precise_xstrtod` accepts `inf`/`infinity`
case-insensitively, which is why non-finite values can survive coercion.) -/
def pyToNumeric (cs0 : List Char) : NumVal :=
  let cs := (cs0.dropWhile pyIsSpace).reverse.dropWhile pyIsSpace |>.reverse
  let s := parseSign cs
  if lowerEq s.2 ['i', 'n', 'f'] ∨
     lowerEq s.2 ['i', 'n', 'f', 'i', 'n', 'i', 't', 'y'] then
    if s.1 then .ninf else .pinf
  else if lowerEq s.2 ['n', 'a', 'n'] then .nan
  else
    match parseDecimal s.2 with
    | some q => .fin (if s.1 then -q else q)
    | none => .nan

/-! ## Encodings -/

/-- The sidebar encoding selector (line 102 of `app.py`): one of the two
named encodings, or the `Customized Mapping` mode. -/
inductive EncodingMode where
  | latin1
  | utf8
  | custom
  deriving DecidableEq, Repr

/-- Latin-1 decoding of a byte sequence: every byte value maps directly to
the code point of the same number, so decoding never fails. -/
def latin1Decode (bs : List Nat) : List Char := bs.map Char.ofNat

/-- Whether `b` is a UTF-8 continuation byte. -/
def utf8Cont (b : Nat) : Bool := decide (0x80 ≤ b ∧ b < 0xC0)

/-- Strict UTF-8 decoding: `none` exactly when the byte sequence is
invalid UTF-8 (the condition under which Python raises
`UnicodeDecodeError`).  Overlong forms, surrogates and values beyond
U+10FFFF are rejected. -/
def utf8Decode : List Nat → Option (List Char)
  | [] => some []
  | b :: rest =>
    if b < 0x80 then
      (utf8Decode rest).map (fun cs => Char.ofNat b :: cs)
    else if b < 0xC2 then none
    else if b < 0xE0 then
      match rest with
      | b2 :: rest2 =>
        if utf8Cont b2 then
          (utf8Decode rest2).map
            (fun cs => Char.ofNat ((b - 0xC0) * 0x40 + (b2 - 0x80)) :: cs)
        else none
      | _ => none
    else if b < 0xF0 then
      match rest with
      | b2 :: b3 :: rest3 =>
        if (if b = 0xE0 then 0xA0 else 0x80) ≤ b2 ∧
           b2 < (if b = 0xED then 0xA0 else 0xC0) ∧ utf8Cont b3 = true then
          (utf8Decode rest3).map
            (fun cs => Char.ofNat
              ((b - 0xE0) * 0x1000 + (b2 - 0x80) * 0x40 + (b3 - 0x80)) :: cs)
        else none
      | _ => none
    else if b < 0xF5 then
      match rest with
      | b2 :: b3 :: b4 :: rest4 =>
        if (if b = 0xF0 then 0x90 else 0x80) ≤ b2 ∧
           b2 < (if b = 0xF4 then 0x90 else 0xC0) ∧
           utf8Cont b3 = true ∧ utf8Cont b4 = true then
          (utf8Decode rest4).map
            (fun cs => Char.ofNat
              ((b - 0xF0) * 0x40000 + (b2 - 0x80) * 0x1000 +
               (b3 - 0x80) * 0x40 + (b4 - 0x80)) :: cs)
        else none
      | _ => none
    else none

/-- Decoding under a named encoding, for the `pd.read_csv(..., encoding=...)`
path (line 41 of `app.py`).  Latin-1 accepts every byte sequence; UTF-8
is strict. -/
def decodeNamed : EncodingMode → List Nat → Option (List Char)
  | .latin1, bs => some (latin1Decode bs)
  | .utf8, bs => utf8Decode bs
  | .custom, bs => some (latin1Decode bs)

/-! ## `process_txt_file` (lines 30-66 of `app.py`) -/

/-- Line 37 of `app.py`:
`rows = [line.split() for line in lines if line.strip()]`, with each
token kept as a string. -/
def rawRowsOf (content : List Char) : List (List String) :=
  ((pySplitLines content).filter pyStripNonEmpty).map
    (fun l => (pySplit l).map (fun t => String.mk t))

/-- The number of columns `pd.DataFrame(rows)` creates from possibly
ragged rows: the longest row's length (0 for no rows). -/
def dfWidth (rows : List (List String)) : Nat :=
  rows.foldl (fun w r => max w r.length) 0

/-- One cell after the `convert_digits_to_symbols` application (lines
47-51) followed by `pd.to_numeric(..., errors="coerce")` (lines 56-58).
A cell absent because the row was shorter than the frame is `none`; the
code then sees `str()` of the filler object (`"None"` for a padded
`DataFrame` cell, `"nan"` for a `read_csv` hole), which is `padStr`. -/
def coerceCell (m : SymbolMap) (padStr : String) (cell : Option String) : NumVal :=
  pyToNumeric (convert_digits_to_symbols (cell.getD padStr).data m)

/-- All rows of the frame after symbol conversion and numeric coercion,
before `dropna`: each row padded (or truncated) to the frame width. -/
def coercedRowsOf (m : SymbolMap) (padStr : String) (w : Nat)
    (rows : List (List String)) : List (List NumVal) :=
  rows.map (fun r => (List.range w).map (fun i => coerceCell m padStr r[i]?))

/-- Whether `dropna` keeps the row: no cell is NaN. -/
def rowClean (r : List NumVal) : Bool := r.all (fun v => !v.isNan)

/-- Lines 56-61 of `app.py`: numeric coercion of every column, then
`dropna().reset_index(drop=True)`. -/
def tableOf (m : SymbolMap) (padStr : String) (w : Nat)
    (rows : List (List String)) : List (List NumVal) :=
  (coercedRowsOf m padStr w rows).filter rowClean

/-- The file-level error wrapping of line 53 after the generic handler of
lines 65-66. -/
def unsupportedColumnsMsg : String :=
  "Error processing .txt file: Unsupported number of columns. Expected 1 or 2 columns."

/-- The file-level error of lines 63-64 (a `UnicodeDecodeError` from the
named-encoding read). -/
def encodingIssueMsg : String :=
  "Encoding issue. Try converting the file to UTF-8."

/-- `pd.read_csv` raising `EmptyDataError` on content with no data rows,
wrapped by the generic handler of lines 65-66. -/
def emptyDataMsg : String :=
  "Error processing .txt file: No columns to parse from file"

/-- `pd.read_csv` raising `ParserError` when a row holds more fields than
the first row established, wrapped by the generic handler of lines 65-66. -/
def tokenizeErrorMsg : String :=
  "Error processing .txt file: Error tokenizing data"

/-- Lines 34-38 and 43-62 of `app.py`: the `Customized Mapping` branch.
The bytes are read as latin-1 (which cannot fail), split into lines,
blank lines dropped, each line split on whitespace; the resulting ragged
rows give a frame whose column count must be 1 or 2, otherwise the
`ValueError` of line 53 aborts the whole file. -/
def processTxtFileCustom (bytes : List Nat) (m : SymbolMap) :
    Except String (List (List NumVal)) :=
  let rows := rawRowsOf (latin1Decode bytes)
  let w := dfWidth rows
  if w = 1 ∨ w = 2 then .ok (tableOf m "None" w rows)
  else .error unsupportedColumnsMsg

/-- The `pd.read_csv(uploaded_file, delim_whitespace=True, header=None,
encoding=encoding)` branch (line 41): decoding failure aborts the file
with the encoding error; content without data rows raises
`EmptyDataError`; a row with more fields than the first row raises
`ParserError`; shorter rows are padded with NaN holes.  Then the shared
column-count check and coercion pipeline of lines 43-62 runs. -/
def processTxtFileNamed (enc : EncodingMode) (bytes : List Nat)
    (m : SymbolMap) : Except String (List (List NumVal)) :=
  match decodeNamed enc bytes with
  | none => .error encodingIssueMsg
  | some content =>
    let rows := rawRowsOf content
    match rows with
    | [] => .error emptyDataMsg
    | r0 :: _ =>
      if rows.all (fun r => r.length ≤ r0.length) then
        let w := r0.length
        if w = 1 ∨ w = 2 then .ok (tableOf m "nan" w rows)
        else .error unsupportedColumnsMsg
      else .error tokenizeErrorMsg

/-- Lines 30-66 of `app.py` (`process_txt_file`): dispatch on the selected
encoding mode. -/
def process_txt_file (enc : EncodingMode) (bytes : List Nat)
    (m : SymbolMap) : Except String (List (List NumVal)) :=
  match enc with
  | .custom => processTxtFileCustom bytes m
  | _ => processTxtFileNamed enc bytes m

/-! ## The `Process Files` action (lines 108-219 of `app.py`)

The model covers uploads processed through the plain-text branch
(lines 163-164, `process_txt_file`).  Files whose name ends in `.odt`
take the structured-document branch (lines 133-161) instead: its text
extraction (`odf.opendocument.load`) is an external collaborator, its
frame keeps raw strings (no numeric coercion), and its bounds update
then raises a `TypeError`, so that branch is not decidable from the
plain bytes of an upload.  Every loop-level theorem therefore carries
the explicit hypothesis `isPlainText` — no quantified upload is an
`.odt` document — restricting it to the branch the model embeds. -/

/-- An uploaded file: a display name and its raw bytes. -/
structure UploadedFile where
  name : String
  bytes : List Nat
  deriving DecidableEq, Repr

/-- Model of `os.path.splitext`: split the name at the last dot, except
that leading dots never begin an extension. -/
def splitExtPair (name : String) : String × String :=
  let cs := name.data
  let lead := cs.takeWhile (fun c => c = '.')
  let rest := cs.drop lead.length
  match rest.reverse.findIdx? (fun c => c = '.') with
  | none => (name, "")
  | some j =>
    (String.mk (lead ++ rest.take (rest.length - (j + 1))),
     String.mk (rest.drop (rest.length - (j + 1))))

/-- Line 117 of `app.py`: the file label is the name without its
extension. -/
def fileLabel (f : UploadedFile) : String := (splitExtPair f.name).1

/-- Line 116 of `app.py`: the file's extension. -/
def fileExt (f : UploadedFile) : String := (splitExtPair f.name).2

/-- The upload is dispatched to the plain-text branch of the loop
(line 163 of `app.py`): its extension is not `.odt`, so the
structured-document branch of line 133 is not taken.  Loop-level
theorems assume this of every quantified upload. -/
abbrev isPlainText (f : UploadedFile) : Prop := fileExt f ≠ ".odt"

/-- Lines 119-127 of `app.py`: the name under which the file is reported,
after forcing a `.txt` extension on everything but `.odt`. -/
def displayName (f : UploadedFile) : String :=
  if fileExt f = "" then f.name ++ ".txt"
  else if fileExt f = ".odt" then f.name
  else fileLabel f ++ ".txt"

/-- Line 175 of `app.py`: the per-file error surfaced with `st.error`. -/
def fileErrorMsg (f : UploadedFile) (e : String) : String :=
  "Error processing file " ++ displayName f ++ ": " ++ e

/-- Python `a < b` on floating values: NaN compares false against
everything. -/
def numLt : NumVal → NumVal → Bool
  | .nan, _ => false
  | _, .nan => false
  | .ninf, .ninf => false
  | .ninf, _ => true
  | _, .ninf => false
  | .pinf, .pinf => false
  | .fin _, .pinf => true
  | .pinf, .fin _ => false
  | .fin a, .fin b => decide (a < b)

/-- Python `min(a, b)`: the second argument only when strictly smaller. -/
def pyMin (a b : NumVal) : NumVal := if numLt b a then b else a

/-- Python `max(a, b)`: the second argument only when strictly larger. -/
def pyMax (a b : NumVal) : NumVal := if numLt a b then b else a

/-- `Series.min()` over a column (used only on non-empty, NaN-free
columns, as guaranteed by `dropna` and the non-empty check). -/
def colMin : List NumVal → NumVal
  | [] => .nan
  | x :: xs => xs.foldl pyMin x

/-- `Series.max()` over a column. -/
def colMax : List NumVal → NumVal
  | [] => .nan
  | x :: xs => xs.foldl pyMax x

/-- The first (`Wavelength`) column of a table. -/
def firstCol (t : List (List NumVal)) : List NumVal :=
  t.map (fun r => r.headD .nan)

/-- The second (`Percentage`) column of a table. -/
def secondCol (t : List (List NumVal)) : List NumVal :=
  t.map (fun r => r.getD 1 .nan)

/-- Line 171 of `app.py` (`"Percentage" in df`): the frame has a second
column.  Rows are uniform after padding, so the first row decides. -/
def hasTwoCols (t : List (List NumVal)) : Bool :=
  match t with
  | [] => false
  | r :: _ => r.length == 2

/-- The loop state of lines 110-113 of `app.py`. -/
structure LoopState where
  tables : List (List (List NumVal))
  labels : List String
  errors : List String
  minR : NumVal
  maxR : NumVal
  deriving Repr

/-- Lines 110-113: empty accumulators, bounds at `float('inf')` and
`float('-inf')`. -/
def initState : LoopState :=
  { tables := [], labels := [], errors := [], minR := .pinf, maxR := .ninf }

/-- Lines 115-175 of `app.py`, one iteration of the loop for an upload
taken by the plain-text branch (line 163; theorems quantifying over
uploads carry `isPlainText` for this): the label is recorded for every
file (line 129, before the `try`); a processing error only appends an
`st.error` message (lines 174-175); a successful non-empty frame is
appended and the running bounds are updated (lines 166-172), the maximum
only when the frame has a `Percentage` column. -/
def stepFile (m : SymbolMap) (enc : EncodingMode) (s : LoopState)
    (f : UploadedFile) : LoopState :=
  let s1 := { s with labels := s.labels ++ [fileLabel f] }
  match process_txt_file enc f.bytes m with
  | .error e => { s1 with errors := s1.errors ++ [fileErrorMsg f e] }
  | .ok df =>
    if df.isEmpty then s1
    else
      { s1 with
        tables := s1.tables ++ [df],
        minR := pyMin s1.minR (colMin (firstCol df)),
        maxR := if hasTwoCols df then pyMax s1.maxR (colMax (secondCol df))
                else s1.maxR }

/-- Lines 68-75 of `app.py` (`save_to_excel`): one sheet per zipped
(frame, label) pair, in order. -/
def save_to_excel (dataframes : List (List (List NumVal)))
    (file_names : List String) : List ((List (List NumVal)) × String) :=
  dataframes.zip file_names

/-- Everything one `Process Files` click surfaces. -/
structure ActionResult where
  tables : List (List (List NumVal))
  labels : List String
  errors : List String
  minRange : Option NumVal
  maxRange : Option NumVal
  plotted : Option (List ((List (List NumVal)) × String))
  noDataWarning : Bool
  workbook : Option (List ((List (List NumVal)) × String))
  uploadWarning : Bool
  deriving Repr

/-- Lines 108-219 of `app.py`, for an action whose uploads are all
plain-text files (theorems about it carry `isPlainText` for every
upload; `.odt` documents take the external-extractor branch the model
does not embed): with no uploads, only the
"Please upload files to process." warning appears (line 219).  Otherwise
every file runs through the loop; bounds fall back to 0.0 / 100.0 when
untouched (lines 177-181); the plot is drawn over `zip(all_dataframes,
file_labels)` only when some frame survived, else the
"No valid data to plot." warning appears (lines 183-206); the workbook is
always built from the same zip and offered for download (lines 208-217). -/
def processFiles (files : List UploadedFile) (m : SymbolMap)
    (enc : EncodingMode) : ActionResult :=
  if files.isEmpty then
    { tables := [], labels := [], errors := [], minRange := none,
      maxRange := none, plotted := none, noDataWarning := false,
      workbook := none, uploadWarning := true }
  else
    let s := files.foldl (stepFile m enc) initState
    { tables := s.tables, labels := s.labels, errors := s.errors,
      minRange := some (if s.minR = .pinf then .fin 0 else s.minR),
      maxRange := some (if s.maxR = .ninf then .fin 100 else s.maxR),
      plotted := if s.tables.isEmpty then none
                 else some (s.tables.zip s.labels),
      noDataWarning := s.tables.isEmpty,
      workbook := some (save_to_excel s.tables s.labels),
      uploadWarning := false }

/-! ## Derived dataset quantities and characterizations -/

/-- The minimum of a list of values, seeded like line 112 of `app.py`
with `float('inf')`. -/
def minOverList (xs : List NumVal) : NumVal := xs.foldl pyMin .pinf

/-- The maximum of a list of values, seeded like line 113 of `app.py`
with `float('-inf')`. -/
def maxOverList (xs : List NumVal) : NumVal := xs.foldl pyMax .ninf

/-- Every first-column (`Wavelength`) value of every table, in order. -/
def allFirstVals (ts : List (List (List NumVal))) : List NumVal :=
  (ts.map firstCol).flatten

/-- Every second-column (`Percentage`) value of every table that has a
second column, in order. -/
def allSecondVals (ts : List (List (List NumVal))) : List NumVal :=
  ((ts.filter hasTwoCols).map secondCol).flatten

/-- The frames the loop appends: the successful, non-empty results, in
upload order. -/
def tablesOf (m : SymbolMap) (enc : EncodingMode)
    (files : List UploadedFile) : List (List (List NumVal)) :=
  files.filterMap (fun f =>
    match process_txt_file enc f.bytes m with
    | .ok df => if df.isEmpty then none else some df
    | .error _ => none)

/-- The `st.error` messages the loop emits, in upload order. -/
def errorsOf (m : SymbolMap) (enc : EncodingMode)
    (files : List UploadedFile) : List String :=
  files.filterMap (fun f =>
    match process_txt_file enc f.bytes m with
    | .ok _ => none
    | .error e => some (fileErrorMsg f e))

/-- Well-formedness every appended frame enjoys: non-empty, of uniform
width 1 or 2, with no NaN cell surviving `dropna`. -/
def tableShaped (t : List (List NumVal)) : Prop :=
  t ≠ [] ∧ ∃ w, (w = 1 ∨ w = 2) ∧ ∀ r ∈ t, r.length = w ∧ ∀ v ∈ r, v ≠ .nan

/-- Byte content of an ASCII string, for concrete test files. -/
def strBytes (s : String) : List Nat := s.data.map Char.toNat

/-- Decidable equality of parse results, for concrete evaluation. -/
instance : DecidableEq (Except String (List (List NumVal))) :=
  fun a b =>
    match a, b with
    | .error e, .error f =>
      if h : e = f then isTrue (by rw [h])
      else isFalse (fun hc => h (by injection hc))
    | .ok x, .ok y =>
      if h : x = y then isTrue (by rw [h])
      else isFalse (fun hc => h (by injection hc))
    | .error _, .ok _ => isFalse (fun hc => Except.noConfusion hc)
    | .ok _, .error _ => isFalse (fun hc => Except.noConfusion hc)

/-! ## Theorems -/

/-! ## Lemmas about the two substitution passes -/

theorem dictGet_mem {m : SymbolMap} {k v : String} (h : dictGet m k = some v) :
    (k, v) ∈ m := by
  unfold dictGet at h
  cases hf : m.find? (fun p => p.1 == k) with
  | none => rw [hf] at h; simp at h
  | some p =>
    rw [hf] at h
    simp at h
    have hp := List.find?_some hf
    have hm := List.mem_of_find?_eq_some hf
    simp only [beq_iff_eq] at hp
    have : p = (k, v) := by
      cases p with
      | mk a b => simp_all
    rw [this] at hm
    exact hm

theorem dictGet_eq_none {m : SymbolMap} {k : String}
    (h : k ∉ m.map Prod.fst) : dictGet m k = none := by
  unfold dictGet
  have : m.find? (fun p => p.1 == k) = none := by
    rw [List.find?_eq_none]
    intro p hp
    simp only [beq_iff_eq]
    intro hk
    exact h (List.mem_map.mpr ⟨p, hp, hk⟩)
  rw [this]; rfl

theorem dictGet_isSome {m : SymbolMap} {k : String}
    (h : k ∈ m.map Prod.fst) : ∃ v, dictGet m k = some v := by
  obtain ⟨p, hp, hk⟩ := List.mem_map.mp h
  unfold dictGet
  cases hf : m.find? (fun p => p.1 == k) with
  | none =>
    rw [List.find?_eq_none] at hf
    exact absurd (by simpa using hk) (by simpa using hf p hp)
  | some q => exact ⟨q.2, rfl⟩

theorem reversedMap_foldl {m : SymbolMap} :
    ∀ r : SymbolMap, (m.map Prod.snd).Nodup →
    (∀ p ∈ m, p.2 ∉ r.map Prod.fst) →
    m.foldl (fun r p => dictInsert r p.2 p.1) r = r ++ m.map (fun p => (p.2, p.1)) := by
  induction m with
  | nil => intro r _ _; simp
  | cons q m ih =>
    intro r hnd hdisj
    have hnd2 : q.2 ∉ m.map Prod.snd ∧ (m.map Prod.snd).Nodup := by
      have h := hnd; rw [List.map_cons, List.nodup_cons] at h; exact h
    have hq : q.2 ∉ r.map Prod.fst := hdisj q (List.mem_cons_self q m)
    have hins : dictInsert r q.2 q.1 = r ++ [(q.2, q.1)] := by
      unfold dictInsert
      have : r.any (fun p => p.1 == q.2) = false := by
        rw [List.any_eq_false]
        intro p hp
        simp only [beq_iff_eq]
        intro hk
        exact hq (List.mem_map.mpr ⟨p, hp, hk⟩)
      rw [this]; simp
    simp only [List.foldl_cons, hins]
    rw [ih (r ++ [(q.2, q.1)]) hnd2.2]
    · simp
    · intro p hp
      simp only [List.map_append, List.mem_append, List.map_cons]
      push_neg
      constructor
      · exact hdisj p (List.mem_cons_of_mem q hp)
      · simp only [List.map_cons, List.map_nil, List.mem_singleton]
        intro hcontra
        have hv : q.2 ∈ m.map Prod.snd := List.mem_map.mpr ⟨p, hp, hcontra.symm ▸ rfl⟩
        exact hnd2.1 hv

theorem reversedMap_eq_swap {m : SymbolMap} (hnd : (m.map Prod.snd).Nodup) :
    reversedMap m = m.map (fun p => (p.2, p.1)) := by
  unfold reversedMap
  simpa using reversedMap_foldl [] hnd (by simp)

theorem dictGet_reversedMap {m : SymbolMap} {k v : String}
    (hnd : (m.map Prod.snd).Nodup) (hmem : (k, v) ∈ m) :
    dictGet (reversedMap m) v = some k := by
  rw [reversedMap_eq_swap hnd]
  unfold dictGet
  induction m with
  | nil => cases hmem
  | cons q m ih =>
    have hnd2 : q.2 ∉ m.map Prod.snd ∧ (m.map Prod.snd).Nodup := by
      have h := hnd; rw [List.map_cons, List.nodup_cons] at h; exact h
    simp only [List.map_cons, List.find?_cons]
    by_cases hv : q.2 = v
    · have : (q.2 == v) = true := by simpa using hv
      simp only [this, cond_true]
      have hqk : q.1 = k := by
        rcases List.mem_cons.mp hmem with h | h
        · rw [← h]
        · exfalso
          have : v ∈ m.map Prod.snd := List.mem_map.mpr ⟨(k, v), h, rfl⟩
          exact hnd2.1 (hv ▸ this)
      simp [hv, hqk]
    · have : (q.2 == v) = false := by simpa using hv
      simp only [this, cond_false]
      rcases List.mem_cons.mp hmem with h | h
      · exact absurd (by rw [← h]) hv
      · exact ih hnd2.2 h

theorem substitutePass_append (m : SymbolMap) (a b : List Char) :
    substitutePass m (a ++ b) = substitutePass m a ++ substitutePass m b := by
  simp [substitutePass]

theorem convert_append (m : SymbolMap) (a b : List Char) :
    convert_digits_to_symbols (a ++ b) m =
      convert_digits_to_symbols a m ++ convert_digits_to_symbols b m := by
  unfold convert_digits_to_symbols
  rw [substitutePass_append, substitutePass_append]

theorem convert_cons (m : SymbolMap) (c : Char) (t : List Char) :
    convert_digits_to_symbols (c :: t) m =
      convert_digits_to_symbols [c] m ++ convert_digits_to_symbols t m := by
  have : c :: t = [c] ++ t := rfl
  rw [this, convert_append]

theorem string_of_length_one {v : String} (h : v.length = 1) :
    ∃ d : Char, v = charStr d := by
  cases v with
  | mk data =>
    cases data with
    | nil => simp [String.length] at h
    | cons c rest =>
      cases rest with
      | nil => exact ⟨c, rfl⟩
      | cons c2 rest2 => simp [String.length] at h

theorem allowedKeys_single {s : String} (h : s ∈ allowedKeys) :
    ∃ c : Char, s = charStr c := by
  simp only [allowedKeys, List.mem_cons, List.not_mem_nil, or_false] at h
  rcases h with rfl | rfl | rfl | rfl | rfl | rfl | rfl | rfl | rfl | rfl | rfl
  · exact ⟨'0', rfl⟩
  · exact ⟨'1', rfl⟩
  · exact ⟨'2', rfl⟩
  · exact ⟨'3', rfl⟩
  · exact ⟨'4', rfl⟩
  · exact ⟨'5', rfl⟩
  · exact ⟨'6', rfl⟩
  · exact ⟨'7', rfl⟩
  · exact ⟨'8', rfl⟩
  · exact ⟨'9', rfl⟩
  · exact ⟨'.', rfl⟩

theorem substitutePass_single (m : SymbolMap) (c : Char) :
    substitutePass m [c] = ((dictGet m (charStr c)).getD (charStr c)).data := by
  simp [substitutePass]

/-- A character that is a key of an injective single-glyph map survives the
round trip of both passes unchanged. -/
theorem convert_key_char {m : SymbolMap} (hinj : injectiveMap m)
    (hsg : singleGlyphs m) {c : Char} (hc : charStr c ∈ m.map Prod.fst) :
    convert_digits_to_symbols [c] m = [c] := by
  obtain ⟨v, hv⟩ := dictGet_isSome hc
  have hmem : (charStr c, v) ∈ m := dictGet_mem hv
  obtain ⟨d, hd⟩ := string_of_length_one (hsg _ hmem)
  have hd2 : v = charStr d := hd
  unfold convert_digits_to_symbols
  rw [substitutePass_single, hv]
  simp only [Option.getD_some]
  rw [hd2]
  have : (charStr d).data = [d] := rfl
  rw [this, substitutePass_single]
  rw [← hd2, dictGet_reversedMap hinj hmem]
  rfl

/-- A character that is neither a key nor (as a one-character string) a
stored glyph passes through both substitution passes unchanged. -/
theorem convert_miss_char {m : SymbolMap} {c : Char}
    (hc : charStr c ∉ m.map Prod.fst)
    (hr : dictGet (reversedMap m) (charStr c) = none) :
    convert_digits_to_symbols [c] m = [c] := by
  unfold convert_digits_to_symbols
  rw [substitutePass_single, dictGet_eq_none hc]
  simp only [Option.getD_none]
  have : (charStr c).data = [c] := rfl
  rw [this, substitutePass_single, hr]
  rfl

/-- A character that is not a key but is a glyph of an injective map whose
keys are all permitted source characters is rewritten by the second pass
to the key owning that glyph, which is itself a key of the map. -/
theorem convert_nonkey_hit {m : SymbolMap} (hinj : injectiveMap m)
    (hka : keysAllowed m) {c : Char} (hc : charStr c ∉ m.map Prod.fst)
    {k : String} (hk : dictGet (reversedMap m) (charStr c) = some k) :
    ∃ c' : Char, convert_digits_to_symbols [c] m = [c'] ∧
      charStr c' ∈ m.map Prod.fst := by
  have hmemrev : (charStr c, k) ∈ reversedMap m := dictGet_mem hk
  rw [reversedMap_eq_swap hinj] at hmemrev
  obtain ⟨p, hp, hpe⟩ := List.mem_map.mp hmemrev
  have hk2 : p.2 = charStr c ∧ p.1 = k := by
    constructor
    · exact congrArg Prod.fst hpe
    · exact congrArg Prod.snd hpe
  obtain ⟨c', hc'⟩ := allowedKeys_single (hka p hp)
  refine ⟨c', ?_, ?_⟩
  · unfold convert_digits_to_symbols
    rw [substitutePass_single, dictGet_eq_none hc]
    simp only [Option.getD_none]
    have : (charStr c).data = [c] := rfl
    rw [this, substitutePass_single, hk]
    simp only [Option.getD_some]
    rw [← hk2.2, hc']
    rfl
  · exact List.mem_map.mpr ⟨p, hp, hc' ▸ hk2.2 ▸ rfl⟩

/-! ### Ordering algebra of `pyMin` / `pyMax` away from NaN -/

theorem isNan_false_iff {v : NumVal} : v.isNan = false ↔ v ≠ .nan := by
  cases v <;> simp [NumVal.isNan]

theorem pyMin_cases (a b : NumVal) : pyMin a b = a ∨ pyMin a b = b := by
  unfold pyMin; split_ifs <;> tauto

theorem pyMax_cases (a b : NumVal) : pyMax a b = a ∨ pyMax a b = b := by
  unfold pyMax; split_ifs <;> tauto

theorem pyMin_ne_nan {a b : NumVal} (ha : a ≠ .nan) (hb : b ≠ .nan) :
    pyMin a b ≠ .nan := by
  rcases pyMin_cases a b with h | h <;> rw [h] <;> assumption

theorem pyMax_ne_nan {a b : NumVal} (ha : a ≠ .nan) (hb : b ≠ .nan) :
    pyMax a b ≠ .nan := by
  rcases pyMax_cases a b with h | h <;> rw [h] <;> assumption

theorem numLt_fin (a b : ℚ) : numLt (.fin a) (.fin b) = decide (a < b) := rfl

theorem pyMin_assoc {a b c : NumVal} (ha : a ≠ .nan) (hb : b ≠ .nan)
    (hc : c ≠ .nan) : pyMin (pyMin a b) c = pyMin a (pyMin b c) := by
  cases a <;> cases b <;> cases c <;> simp_all [pyMin, numLt_fin, numLt] <;>
    split_ifs <;> simp_all <;>
    first
    | rfl
    | (exact congrArg NumVal.fin (by linarith))
    | (exfalso; linarith)

theorem pyMax_assoc {a b c : NumVal} (ha : a ≠ .nan) (hb : b ≠ .nan)
    (hc : c ≠ .nan) : pyMax (pyMax a b) c = pyMax a (pyMax b c) := by
  cases a <;> cases b <;> cases c <;> simp_all [pyMax, numLt_fin, numLt] <;>
    split_ifs <;> simp_all <;>
    first
    | rfl
    | (exact congrArg NumVal.fin (by linarith))
    | (exfalso; linarith)

theorem foldl_pyMin_ne_nan {x : NumVal} {l : List NumVal} (hx : x ≠ .nan)
    (hl : ∀ v ∈ l, v ≠ .nan) : l.foldl pyMin x ≠ .nan := by
  induction l generalizing x with
  | nil => exact hx
  | cons b l ih =>
    exact ih (pyMin_ne_nan hx (hl b (List.mem_cons_self b l)))
      (fun v hv => hl v (List.mem_cons_of_mem b hv))

theorem foldl_pyMax_ne_nan {x : NumVal} {l : List NumVal} (hx : x ≠ .nan)
    (hl : ∀ v ∈ l, v ≠ .nan) : l.foldl pyMax x ≠ .nan := by
  induction l generalizing x with
  | nil => exact hx
  | cons b l ih =>
    exact ih (pyMax_ne_nan hx (hl b (List.mem_cons_self b l)))
      (fun v hv => hl v (List.mem_cons_of_mem b hv))

theorem foldl_pyMin_pull {x b : NumVal} {l : List NumVal} (hx : x ≠ .nan)
    (hb : b ≠ .nan) (hl : ∀ v ∈ l, v ≠ .nan) :
    pyMin x (l.foldl pyMin b) = l.foldl pyMin (pyMin x b) := by
  induction l generalizing b with
  | nil => rfl
  | cons c l ih =>
    simp only [List.foldl_cons]
    rw [ih (pyMin_ne_nan hb (hl c (List.mem_cons_self c l)))
      (fun v hv => hl v (List.mem_cons_of_mem c hv))]
    rw [← pyMin_assoc hx hb (hl c (List.mem_cons_self c l))]

theorem foldl_pyMax_pull {x b : NumVal} {l : List NumVal} (hx : x ≠ .nan)
    (hb : b ≠ .nan) (hl : ∀ v ∈ l, v ≠ .nan) :
    pyMax x (l.foldl pyMax b) = l.foldl pyMax (pyMax x b) := by
  induction l generalizing b with
  | nil => rfl
  | cons c l ih =>
    simp only [List.foldl_cons]
    rw [ih (pyMax_ne_nan hb (hl c (List.mem_cons_self c l)))
      (fun v hv => hl v (List.mem_cons_of_mem c hv))]
    rw [← pyMax_assoc hx hb (hl c (List.mem_cons_self c l))]

theorem minOverList_ne_nan {A : List NumVal} (hA : ∀ v ∈ A, v ≠ .nan) :
    minOverList A ≠ .nan :=
  foldl_pyMin_ne_nan (by simp) hA

theorem maxOverList_ne_nan {A : List NumVal} (hA : ∀ v ∈ A, v ≠ .nan) :
    maxOverList A ≠ .nan :=
  foldl_pyMax_ne_nan (by simp) hA

theorem minOverList_append_colMin {A B : List NumVal}
    (hA : ∀ v ∈ A, v ≠ .nan) (hB : ∀ v ∈ B, v ≠ .nan) (hBne : B ≠ []) :
    minOverList (A ++ B) = pyMin (minOverList A) (colMin B) := by
  cases B with
  | nil => exact absurd rfl hBne
  | cons b bs =>
    unfold minOverList colMin
    rw [List.foldl_append]
    simp only [List.foldl_cons]
    rw [foldl_pyMin_pull (foldl_pyMin_ne_nan (fun h => NumVal.noConfusion h) hA)
      (hB b (List.mem_cons_self b bs))
      (fun v hv => hB v (List.mem_cons_of_mem b hv))]

theorem maxOverList_append_colMax {A B : List NumVal}
    (hA : ∀ v ∈ A, v ≠ .nan) (hB : ∀ v ∈ B, v ≠ .nan) (hBne : B ≠ []) :
    maxOverList (A ++ B) = pyMax (maxOverList A) (colMax B) := by
  cases B with
  | nil => exact absurd rfl hBne
  | cons b bs =>
    unfold maxOverList colMax
    rw [List.foldl_append]
    simp only [List.foldl_cons]
    rw [foldl_pyMax_pull (foldl_pyMax_ne_nan (fun h => NumVal.noConfusion h) hA)
      (hB b (List.mem_cons_self b bs))
      (fun v hv => hB v (List.mem_cons_of_mem b hv))]

/-! ### Shape of parsed tables -/

theorem coercedRowsOf_length {m : SymbolMap} {pad : String} {w : Nat}
    {rows : List (List String)} {r : List NumVal}
    (h : r ∈ coercedRowsOf m pad w rows) : r.length = w := by
  unfold coercedRowsOf at h
  obtain ⟨r0, _, rfl⟩ := List.mem_map.mp h
  simp

theorem tableOf_mem {m : SymbolMap} {pad : String} {w : Nat}
    {rows : List (List String)} {r : List NumVal}
    (h : r ∈ tableOf m pad w rows) :
    r.length = w ∧ ∀ v ∈ r, v ≠ .nan := by
  unfold tableOf at h
  obtain ⟨hmem, hclean⟩ := List.mem_filter.mp h
  refine ⟨coercedRowsOf_length hmem, ?_⟩
  intro v hv
  have := List.all_eq_true.mp hclean v hv
  simpa [isNan_false_iff] using this

theorem processTxtFileCustom_ok {bytes : List Nat} {m : SymbolMap}
    {table : List (List NumVal)}
    (h : processTxtFileCustom bytes m = .ok table) :
    (dfWidth (rawRowsOf (latin1Decode bytes)) = 1 ∨
     dfWidth (rawRowsOf (latin1Decode bytes)) = 2) ∧
    table = tableOf m "None" (dfWidth (rawRowsOf (latin1Decode bytes)))
      (rawRowsOf (latin1Decode bytes)) := by
  simp only [processTxtFileCustom] at h
  split_ifs at h with hw
  exact ⟨hw, by injection h with h2; exact h2.symm⟩

theorem processTxtFileNamed_ok {enc : EncodingMode} {bytes : List Nat}
    {m : SymbolMap} {table : List (List NumVal)}
    (h : processTxtFileNamed enc bytes m = .ok table) :
    ∃ w rows, (w = 1 ∨ w = 2) ∧ table = tableOf m "nan" w rows := by
  unfold processTxtFileNamed at h
  cases hdec : decodeNamed enc bytes with
  | none => rw [hdec] at h; exact Except.noConfusion h
  | some content =>
    rw [hdec] at h
    simp only at h
    cases hrows : rawRowsOf content with
    | nil => rw [hrows] at h; exact Except.noConfusion h
    | cons r0 rest =>
      rw [hrows] at h
      simp only at h
      split_ifs at h with hall hw
      exact ⟨r0.length, r0 :: rest, hw, by injection h with h2; exact h2.symm⟩

theorem process_ok_tableOf {enc : EncodingMode} {bytes : List Nat}
    {m : SymbolMap} {table : List (List NumVal)}
    (h : process_txt_file enc bytes m = .ok table) :
    ∃ pad w rows, (w = 1 ∨ w = 2) ∧ table = tableOf m pad w rows := by
  cases enc with
  | custom =>
    obtain ⟨hw, he⟩ :=
      processTxtFileCustom_ok (show processTxtFileCustom bytes m = .ok table from h)
    exact ⟨"None", _, _, hw, he⟩
  | latin1 =>
    obtain ⟨w, rows, hw, he⟩ :=
      processTxtFileNamed_ok
        (show processTxtFileNamed .latin1 bytes m = .ok table from h)
    exact ⟨"nan", w, rows, hw, he⟩
  | utf8 =>
    obtain ⟨w, rows, hw, he⟩ :=
      processTxtFileNamed_ok
        (show processTxtFileNamed .utf8 bytes m = .ok table from h)
    exact ⟨"nan", w, rows, hw, he⟩

/-- Every row of a successfully parsed plain-text table has the frame's
width (1 or 2) and contains no NaN cell. -/
theorem process_ok_shape {enc : EncodingMode} {bytes : List Nat}
    {m : SymbolMap} {table : List (List NumVal)}
    (h : process_txt_file enc bytes m = .ok table) :
    ∃ w, (w = 1 ∨ w = 2) ∧ ∀ r ∈ table, r.length = w ∧ ∀ v ∈ r, v ≠ .nan := by
  obtain ⟨pad, w, rows, hw, he⟩ := process_ok_tableOf h
  exact ⟨w, hw, fun r hr => tableOf_mem (he ▸ hr)⟩

theorem process_ok_shaped {enc : EncodingMode} {bytes : List Nat}
    {m : SymbolMap} {table : List (List NumVal)}
    (h : process_txt_file enc bytes m = .ok table) (hne : table ≠ []) :
    tableShaped table := by
  obtain ⟨w, hw, hr⟩ := process_ok_shape h
  exact ⟨hne, w, hw, hr⟩

/-! ### The loop state, file by file -/

theorem stepFile_labels (m : SymbolMap) (enc : EncodingMode) (s : LoopState)
    (f : UploadedFile) :
    (stepFile m enc s f).labels = s.labels ++ [fileLabel f] := by
  unfold stepFile
  cases process_txt_file enc f.bytes m with
  | error e => rfl
  | ok df => by_cases h : df.isEmpty = true <;> simp [h]

theorem stepFile_errors (m : SymbolMap) (enc : EncodingMode) (s : LoopState)
    (f : UploadedFile) :
    (stepFile m enc s f).errors = s.errors ++
      (match process_txt_file enc f.bytes m with
       | .ok _ => []
       | .error e => [fileErrorMsg f e]) := by
  unfold stepFile
  cases process_txt_file enc f.bytes m with
  | error e => rfl
  | ok df => by_cases h : df.isEmpty = true <;> simp [h]

theorem stepFile_tables (m : SymbolMap) (enc : EncodingMode) (s : LoopState)
    (f : UploadedFile) :
    (stepFile m enc s f).tables = s.tables ++
      (match process_txt_file enc f.bytes m with
       | .ok df => if df.isEmpty then [] else [df]
       | .error _ => []) := by
  unfold stepFile
  cases process_txt_file enc f.bytes m with
  | error e => simp
  | ok df => by_cases h : df.isEmpty = true <;> simp [h]

theorem foldl_stepFile_labels (m : SymbolMap) (enc : EncodingMode)
    (files : List UploadedFile) :
    ∀ s : LoopState,
    (files.foldl (stepFile m enc) s).labels = s.labels ++ files.map fileLabel := by
  induction files with
  | nil => intro s; simp
  | cons f files ih =>
    intro s
    simp only [List.foldl_cons, List.map_cons]
    rw [ih, stepFile_labels]
    simp

theorem foldl_stepFile_errors (m : SymbolMap) (enc : EncodingMode)
    (files : List UploadedFile) :
    ∀ s : LoopState,
    (files.foldl (stepFile m enc) s).errors = s.errors ++ errorsOf m enc files := by
  induction files with
  | nil => intro s; simp [errorsOf]
  | cons f files ih =>
    intro s
    simp only [List.foldl_cons]
    rw [ih, stepFile_errors]
    unfold errorsOf
    rw [List.filterMap_cons]
    cases process_txt_file enc f.bytes m <;> simp

theorem foldl_stepFile_tables (m : SymbolMap) (enc : EncodingMode)
    (files : List UploadedFile) :
    ∀ s : LoopState,
    (files.foldl (stepFile m enc) s).tables = s.tables ++ tablesOf m enc files := by
  induction files with
  | nil => intro s; simp [tablesOf]
  | cons f files ih =>
    intro s
    simp only [List.foldl_cons]
    rw [ih, stepFile_tables]
    unfold tablesOf
    rw [List.filterMap_cons]
    cases h : process_txt_file enc f.bytes m with
    | error e => simp
    | ok df => by_cases hd : df.isEmpty = true <;> simp [hd]

/-! ### The running bounds are the min/max over the collected columns -/

theorem headD_mem {r : List NumVal} (h : r ≠ []) : r.headD .nan ∈ r := by
  cases r with
  | nil => exact absurd rfl h
  | cons a l => simp

theorem getD_one_mem {r : List NumVal} (h : r.length = 2) : r.getD 1 .nan ∈ r := by
  cases r with
  | nil => simp at h
  | cons a t =>
    cases t with
    | nil => simp at h
    | cons b t2 => simp [List.getD]

theorem firstCol_ne_nil {t : List (List NumVal)} (hne : t ≠ []) :
    firstCol t ≠ [] := by
  simp [firstCol, hne]

theorem secondCol_ne_nil {t : List (List NumVal)} (hne : t ≠ []) :
    secondCol t ≠ [] := by
  simp [secondCol, hne]

theorem firstCol_shaped_ne_nan {t : List (List NumVal)} (hsh : tableShaped t) :
    ∀ v ∈ firstCol t, v ≠ .nan := by
  obtain ⟨hne, w, hw, hr⟩ := hsh
  intro v hv
  obtain ⟨r, hrmem, rfl⟩ := List.mem_map.mp hv
  obtain ⟨hlen, hnn⟩ := hr r hrmem
  have hrne : r ≠ [] := by
    intro h0
    rw [h0] at hlen
    simp at hlen
    rcases hw with hw | hw <;> omega
  exact hnn _ (headD_mem hrne)

theorem secondCol_shaped_ne_nan {t : List (List NumVal)} (hsh : tableShaped t)
    (h2 : hasTwoCols t = true) : ∀ v ∈ secondCol t, v ≠ .nan := by
  obtain ⟨hne, w, hw, hr⟩ := hsh
  have hw2 : w = 2 := by
    cases t with
    | nil => exact absurd rfl hne
    | cons r0 rest =>
      have hbe : r0.length = 2 := by
        have h2c := h2
        simp [hasTwoCols] at h2c
        exact h2c
      have hl := (hr r0 (List.mem_cons_self r0 rest)).1
      omega
  intro v hv
  obtain ⟨r, hrmem, rfl⟩ := List.mem_map.mp hv
  obtain ⟨hlen, hnn⟩ := hr r hrmem
  exact hnn _ (getD_one_mem (hw2 ▸ hlen))

theorem allFirstVals_ne_nan {ts : List (List (List NumVal))}
    (h : ∀ t ∈ ts, tableShaped t) : ∀ v ∈ allFirstVals ts, v ≠ .nan := by
  intro v hv
  unfold allFirstVals at hv
  obtain ⟨l, hl, hvl⟩ := List.mem_flatten.mp hv
  obtain ⟨t, ht, rfl⟩ := List.mem_map.mp hl
  exact firstCol_shaped_ne_nan (h t ht) v hvl

theorem allSecondVals_ne_nan {ts : List (List (List NumVal))}
    (h : ∀ t ∈ ts, tableShaped t) : ∀ v ∈ allSecondVals ts, v ≠ .nan := by
  intro v hv
  unfold allSecondVals at hv
  obtain ⟨l, hl, hvl⟩ := List.mem_flatten.mp hv
  obtain ⟨t, ht, rfl⟩ := List.mem_map.mp hl
  obtain ⟨htmem, h2⟩ := List.mem_filter.mp ht
  exact secondCol_shaped_ne_nan (h t htmem) h2 v hvl

theorem allFirstVals_append_single (ts : List (List (List NumVal)))
    (df : List (List NumVal)) :
    allFirstVals (ts ++ [df]) = allFirstVals ts ++ firstCol df := by
  simp [allFirstVals]

theorem allSecondVals_append_single (ts : List (List (List NumVal)))
    (df : List (List NumVal)) :
    allSecondVals (ts ++ [df]) =
      allSecondVals ts ++ (if hasTwoCols df then secondCol df else []) := by
  unfold allSecondVals
  rw [List.filter_append]
  by_cases h : hasTwoCols df = true <;> simp [h]

theorem stepFile_minR (m : SymbolMap) (enc : EncodingMode) (s : LoopState)
    (f : UploadedFile) :
    (stepFile m enc s f).minR =
      (match process_txt_file enc f.bytes m with
       | .ok df => if df.isEmpty then s.minR
                   else pyMin s.minR (colMin (firstCol df))
       | .error _ => s.minR) := by
  unfold stepFile
  cases process_txt_file enc f.bytes m with
  | error e => rfl
  | ok df => by_cases h : df.isEmpty = true <;> simp [h]

theorem stepFile_maxR (m : SymbolMap) (enc : EncodingMode) (s : LoopState)
    (f : UploadedFile) :
    (stepFile m enc s f).maxR =
      (match process_txt_file enc f.bytes m with
       | .ok df => if df.isEmpty then s.maxR
                   else if hasTwoCols df then pyMax s.maxR (colMax (secondCol df))
                        else s.maxR
       | .error _ => s.maxR) := by
  unfold stepFile
  cases process_txt_file enc f.bytes m with
  | error e => rfl
  | ok df => by_cases h : df.isEmpty = true <;> simp [h]

theorem stepFile_invariant (m : SymbolMap) (enc : EncodingMode) (s : LoopState)
    (f : UploadedFile)
    (h1 : ∀ t ∈ s.tables, tableShaped t)
    (h2 : s.minR = minOverList (allFirstVals s.tables))
    (h3 : s.maxR = maxOverList (allSecondVals s.tables)) :
    (∀ t ∈ (stepFile m enc s f).tables, tableShaped t) ∧
    (stepFile m enc s f).minR =
      minOverList (allFirstVals (stepFile m enc s f).tables) ∧
    (stepFile m enc s f).maxR =
      maxOverList (allSecondVals (stepFile m enc s f).tables) := by
  rw [stepFile_tables, stepFile_minR, stepFile_maxR]
  cases hp : process_txt_file enc f.bytes m with
  | error e => simpa using ⟨h1, h2, h3⟩
  | ok df =>
    by_cases hd : df.isEmpty = true
    · simpa [hd] using ⟨h1, h2, h3⟩
    · have hdne : df ≠ [] := by
        cases df
        · simp at hd
        · simp
      have hshdf : tableShaped df := process_ok_shaped hp hdne
      simp only [hd, if_false, Bool.false_eq_true]
      refine ⟨?_, ?_, ?_⟩
      · intro t ht
        rcases List.mem_append.mp ht with h | h
        · exact h1 t h
        · rw [List.mem_singleton.mp h]
          exact hshdf
      · rw [allFirstVals_append_single,
          minOverList_append_colMin (allFirstVals_ne_nan h1)
            (firstCol_shaped_ne_nan hshdf) (firstCol_ne_nil hdne), h2]
      · rw [allSecondVals_append_single]
        by_cases h2c : hasTwoCols df = true
        · simp only [h2c, if_true]
          rw [maxOverList_append_colMax (allSecondVals_ne_nan h1)
            (secondCol_shaped_ne_nan hshdf h2c) (secondCol_ne_nil hdne), h3]
        · simp only [h2c, if_false]
          simpa using h3

theorem foldl_stepFile_invariant (m : SymbolMap) (enc : EncodingMode)
    (files : List UploadedFile) :
    ∀ s : LoopState,
    (∀ t ∈ s.tables, tableShaped t) →
    s.minR = minOverList (allFirstVals s.tables) →
    s.maxR = maxOverList (allSecondVals s.tables) →
    (∀ t ∈ (files.foldl (stepFile m enc) s).tables, tableShaped t) ∧
    (files.foldl (stepFile m enc) s).minR =
      minOverList (allFirstVals ((files.foldl (stepFile m enc) s).tables)) ∧
    (files.foldl (stepFile m enc) s).maxR =
      maxOverList (allSecondVals ((files.foldl (stepFile m enc) s).tables)) := by
  induction files with
  | nil => intro s h1 h2 h3; exact ⟨h1, h2, h3⟩
  | cons f files ih =>
    intro s h1 h2 h3
    have hstep := stepFile_invariant m enc s f h1 h2 h3
    exact ih _ hstep.1 hstep.2.1 hstep.2.2

/-! ### Claim C1 -/

/-- Claim C1, as stated, is false: the symbol map `{"0": "1"}` is
injective with its key among the eleven characters, and the string `"1"`
consists only of those characters, yet
`convert_digits_to_symbols("1", M)` returns `"0"`, not `"1"` — the second
pass rewrites a character that the first pass never produced. -/
theorem c1_roundtrip_counterexample :
    injectiveMap [("0", "1")] ∧ keysAllowed [("0", "1")] ∧
    (∀ c ∈ ['1'], charStr c ∈ allowedKeys) ∧
    convert_digits_to_symbols ['1'] [("0", "1")] ≠ ['1'] := by
  refine ⟨?_, ?_, ?_, ?_⟩ <;> decide

/-- Claim C1 (amended): for an injective symbol map whose keys are among
the eleven characters and whose glyphs are single characters, and for a
string each of whose characters is a key of the map,
`convert_digits_to_symbols` returns the string unchanged. -/
theorem c1_roundtrip_amended (m : SymbolMap) (s : List Char)
    (hinj : injectiveMap m) (hka : keysAllowed m) (hsg : singleGlyphs m)
    (hs : ∀ c ∈ s, charStr c ∈ m.map Prod.fst) :
    convert_digits_to_symbols s m = s := by
  induction s with
  | nil => rfl
  | cons c t ih =>
    rw [convert_cons, convert_key_char hinj hsg (hs c (List.mem_cons_self c t)),
      ih (fun c hc => hs c (List.mem_cons_of_mem _ hc))]
    rfl

/-- Witness for the amended C1 at the default map and the digits of
`"190.5"`. -/
theorem c1_roundtrip_amended_witness :
    injectiveMap default_symbol_map ∧
    convert_digits_to_symbols ['1', '9', '0', '.', '5'] default_symbol_map =
      ['1', '9', '0', '.', '5'] :=
  ⟨by decide,
   c1_roundtrip_amended default_symbol_map ['1', '9', '0', '.', '5']
     (by decide) (by decide) (by decide) (by decide)⟩

/-! ### Claim C10 -/

/-- Claim C10, as stated, is false: with the injective map
`{"0": "a1", "1": "bc"}` (keys among the eleven characters),
`convert_digits_to_symbols("0")` is `"a1"`, but applying the function
again yields `"abc"` — decoding is not idempotent when a glyph spans
several characters. -/
theorem c10_idempotent_counterexample :
    injectiveMap [("0", "a1"), ("1", "bc")] ∧
    keysAllowed [("0", "a1"), ("1", "bc")] ∧
    convert_digits_to_symbols
        (convert_digits_to_symbols ['0'] [("0", "a1"), ("1", "bc")])
        [("0", "a1"), ("1", "bc")] ≠
      convert_digits_to_symbols ['0'] [("0", "a1"), ("1", "bc")] := by
  refine ⟨?_, ?_, ?_⟩ <;> decide

/-- Claim C10 (amended): for an injective symbol map with keys among the
eleven characters whose glyphs are all single characters, applying
`convert_digits_to_symbols` twice equals applying it once, on every
input string. -/
theorem c10_idempotent_amended (m : SymbolMap) (t : List Char)
    (hinj : injectiveMap m) (hka : keysAllowed m) (hsg : singleGlyphs m) :
    convert_digits_to_symbols (convert_digits_to_symbols t m) m =
      convert_digits_to_symbols t m := by
  induction t with
  | nil => rfl
  | cons c t ih =>
    rw [convert_cons, convert_append, ih]
    congr 1
    by_cases hc : charStr c ∈ m.map Prod.fst
    · rw [convert_key_char hinj hsg hc]
      exact convert_key_char hinj hsg hc
    · cases hr : dictGet (reversedMap m) (charStr c) with
      | none =>
        rw [convert_miss_char hc hr]
        exact convert_miss_char hc hr
      | some k =>
        obtain ⟨c', hc', hkey⟩ := convert_nonkey_hit hinj hka hc hr
        rw [hc']
        exact convert_key_char hinj hsg hkey

/-- Witness for the amended C10 at the default map on a string mixing
glyphs, digits, and unmapped characters. -/
theorem c10_idempotent_amended_witness :
    injectiveMap default_symbol_map ∧
    convert_digits_to_symbols
        (convert_digits_to_symbols ['°', '¹', 'x', '5'] default_symbol_map)
        default_symbol_map =
      convert_digits_to_symbols ['°', '¹', 'x', '5'] default_symbol_map :=
  ⟨by decide,
   c10_idempotent_amended default_symbol_map ['°', '¹', 'x', '5']
     (by decide) (by decide) (by decide)⟩

/-! ### Claim C3 -/

/-- Claim C3, as stated, is false: the mapping `{"0": "x", "1": "x"}` is
not injective, yet the build of lines 89-96 accepts it unchanged — no
fallback to the default map happens and no warning is reported, because
the only check performed is `isinstance(symbol_map, dict)`. -/
theorem c3_fallback_counterexample :
    ¬ injectiveMap [("0", "x"), ("1", "x")] ∧
    buildSymbolMap (.dict [("0", "x"), ("1", "x")]) =
      ([("0", "x"), ("1", "x")], false) ∧
    [("0", "x"), ("1", "x")] ≠ default_symbol_map := by
  refine ⟨?_, ?_, ?_⟩ <;> decide

/-- Claim C3 (amended): the build falls back to the compiled-in default
map, with a warning, exactly when the supplied configuration is not a
dict (including when `eval` fails); any dict — injective or not — is
used as supplied, with no warning. -/
theorem c3_fallback_amended :
    buildSymbolMap .other = (default_symbol_map, true) ∧
    ∀ m : SymbolMap, buildSymbolMap (.dict m) = (m, false) :=
  ⟨rfl, fun m => rfl⟩

/-! ### Claim C2 -/

theorem foldl_width_init_le (rows : List (List String)) :
    ∀ acc : Nat, acc ≤ rows.foldl (fun w r => max w r.length) acc := by
  induction rows with
  | nil => intro acc; simp
  | cons a t ih =>
    intro acc
    exact le_trans (le_max_left acc a.length) (ih _)

theorem foldl_width_mem_le {rows : List (List String)} {r : List String}
    (h : r ∈ rows) :
    ∀ acc : Nat, r.length ≤ rows.foldl (fun w x => max w x.length) acc := by
  induction rows with
  | nil => cases h
  | cons a t ih =>
    intro acc
    rcases List.mem_cons.mp h with rfl | hmem
    · exact le_trans (le_max_right acc r.length) (foldl_width_init_le t _)
    · exact ih hmem _

theorem dfWidth_ge {rows : List (List String)} {r : List String}
    (h : r ∈ rows) : r.length ≤ dfWidth rows :=
  foldl_width_mem_le h 0

/-- Claim C2, as stated, is false: under `Customized Mapping`, the file
`"1 2\n3 4 5"` has a well-formed first row and one row with three tokens,
yet `process_txt_file` aborts the entire file with the `ValueError` of
line 53 — the sibling row `"1 2"` is not parsed into any table, instead
of only the malformed row being skipped. -/
theorem c2_malformed_counterexample :
    process_txt_file .custom (strBytes "1 2\n3 4 5") default_symbol_map =
      .error unsupportedColumnsMsg := by
  rfl

/-- Claim C2 (amended): a row with more than two whitespace tokens raises
the frame's column count above 2 and aborts the whole file with the
file-level "Unsupported number of columns" error (caught per file by the
loop, so sibling files continue); it is not skipped per row.  Rows with
fewer tokens than the column count are padded and later dropped by the
numeric coercion instead. -/
theorem c2_malformed_amended (bytes : List Nat) (m : SymbolMap)
    (h : ∃ r ∈ rawRowsOf (latin1Decode bytes), 2 < r.length) :
    process_txt_file .custom bytes m = .error unsupportedColumnsMsg := by
  obtain ⟨r, hr, hlen⟩ := h
  have hw : 2 < dfWidth (rawRowsOf (latin1Decode bytes)) :=
    lt_of_lt_of_le hlen (dfWidth_ge hr)
  show processTxtFileCustom bytes m = .error unsupportedColumnsMsg
  simp only [processTxtFileCustom]
  have hcond : ¬(dfWidth (rawRowsOf (latin1Decode bytes)) = 1 ∨
      dfWidth (rawRowsOf (latin1Decode bytes)) = 2) := by omega
  rw [if_neg hcond]

/-- Witness for the amended C2 at the concrete file `"1 2\n3 4 5x"`, whose
second row has three tokens. -/
theorem c2_malformed_amended_witness :
    process_txt_file .custom (strBytes "1 2\n3 4 5x") default_symbol_map =
      .error unsupportedColumnsMsg :=
  c2_malformed_amended _ default_symbol_map (by decide)

/-! ### Claim C5 -/

/-- Claim C5, as stated, is false in its reporting half: for the file
`"abc 85\n190 85"` the non-numeric row is dropped and the sibling row
is retained without aborting the file — but nothing is reported: the
loop surfaces no message at all for this file (`dropna` is silent). -/
theorem c5_nonnumeric_counterexample :
    process_txt_file .custom (strBytes "abc 85\n190 85")
        default_symbol_map =
      .ok [[NumVal.fin 190, NumVal.fin 85]] ∧
    (processFiles [⟨"f", strBytes "abc 85\n190 85"⟩] default_symbol_map
        .custom).errors = [] ∧
    (processFiles [⟨"f", strBytes "abc 85\n190 85"⟩] default_symbol_map
        .custom).noDataWarning = false := by
  refine ⟨?_, ?_, ?_⟩ <;> decide

/-- Claim C5 (amended): in a plain-text file, a row with a token that
fails numeric coercion is silently excluded — for a plain-text upload
(not an `.odt` document) no warning is emitted anywhere — while every
row whose cells all coerce is retained in its original order, and the
file is not aborted. -/
theorem c5_nonnumeric_amended (bytes : List Nat) (m : SymbolMap)
    (table : List (List NumVal))
    (h : process_txt_file .custom bytes m = .ok table) :
    (∀ r ∈ table, ∀ v ∈ r, v ≠ .nan) ∧
    table.Sublist (coercedRowsOf m "None"
      (dfWidth (rawRowsOf (latin1Decode bytes))) (rawRowsOf (latin1Decode bytes))) ∧
    (∀ r ∈ coercedRowsOf m "None"
      (dfWidth (rawRowsOf (latin1Decode bytes))) (rawRowsOf (latin1Decode bytes)),
      (∀ v ∈ r, v ≠ .nan) → r ∈ table) ∧
    (∀ (s : LoopState) (f : UploadedFile), f.bytes = bytes → isPlainText f →
      (stepFile m .custom s f).errors = s.errors) := by
  obtain ⟨hw, he⟩ :=
    processTxtFileCustom_ok (show processTxtFileCustom bytes m = .ok table from h)
  refine ⟨?_, ?_, ?_, ?_⟩
  · exact fun r hr => (tableOf_mem (he ▸ hr)).2
  · rw [he]
    exact List.filter_sublist _
  · intro r hr hclean
    rw [he]
    refine List.mem_filter.mpr ⟨hr, ?_⟩
    unfold rowClean
    rw [List.all_eq_true]
    intro v hv
    simpa [isNan_false_iff] using hclean v hv
  · intro s f hf _
    rw [stepFile_errors]
    have : process_txt_file .custom f.bytes m = .ok table := hf ▸ h
    rw [this]
    simp

/-- Witness for the amended C5 at the file `"abc 85\n190 85"`: the clean
row is retained and its first cell is not NaN. -/
theorem c5_nonnumeric_amended_witness :
    (process_txt_file .custom (strBytes "abc 85\n190 85")
        default_symbol_map =
      .ok [[NumVal.fin 190, NumVal.fin 85]]) ∧
    NumVal.fin 190 ≠ NumVal.nan :=
  have h : process_txt_file .custom (strBytes "abc 85\n190 85")
      default_symbol_map =
      .ok [[NumVal.fin 190, NumVal.fin 85]] := by decide
  ⟨h, (c5_nonnumeric_amended _ _ _ h).1 [NumVal.fin 190, NumVal.fin 85]
    (by decide) (NumVal.fin 190) (by decide)⟩

/-! ### Claim C7 -/

/-- Claim C7, as stated, is false: the file `"inf 5"` passes numeric
coercion (`pd.to_numeric` accepts the infinity word) and `dropna` keeps
the row, so a retained row carries a non-finite field into the
downstream table. -/
theorem c7_finite_counterexample :
    process_txt_file .custom (strBytes "inf 5") default_symbol_map =
      .ok [[NumVal.pinf, NumVal.fin 5]] := by
  decide

/-- Claim C7 (amended): every field of every retained row of a
plain-text table is a successfully coerced numeric value — never NaN,
hence never an unparseable token — but it may be one of the two
infinities; rows with any failed coercion are dropped before the table
is returned. -/
theorem c7_no_nan_amended (enc : EncodingMode) (bytes : List Nat)
    (m : SymbolMap) (table : List (List NumVal))
    (h : process_txt_file enc bytes m = .ok table) :
    ∀ r ∈ table, ∀ v ∈ r, v ≠ .nan := by
  obtain ⟨w, hw, hr⟩ := process_ok_shape h
  exact fun r hrm => (hr r hrm).2

/-- Witness for the amended C7 at the file `"190 85"`: the retained
row's second cell is a coerced numeric value, not NaN. -/
theorem c7_no_nan_amended_witness :
    (process_txt_file .custom (strBytes "190 85") default_symbol_map =
      .ok [[NumVal.fin 190, NumVal.fin 85]]) ∧
    NumVal.fin 85 ≠ NumVal.nan :=
  have h : process_txt_file .custom (strBytes "190 85") default_symbol_map =
      .ok [[NumVal.fin 190, NumVal.fin 85]] := by decide
  ⟨h, c7_no_nan_amended _ _ _ _ h [NumVal.fin 190, NumVal.fin 85]
    (by decide) (NumVal.fin 85) (by decide)⟩

/-! ### The action result for a non-empty upload list -/

theorem processFiles_eq {files : List UploadedFile} {m : SymbolMap}
    {enc : EncodingMode} (h : files ≠ []) :
    processFiles files m enc =
      { tables := (files.foldl (stepFile m enc) initState).tables,
        labels := (files.foldl (stepFile m enc) initState).labels,
        errors := (files.foldl (stepFile m enc) initState).errors,
        minRange := some (if (files.foldl (stepFile m enc) initState).minR = .pinf
          then .fin 0 else (files.foldl (stepFile m enc) initState).minR),
        maxRange := some (if (files.foldl (stepFile m enc) initState).maxR = .ninf
          then .fin 100 else (files.foldl (stepFile m enc) initState).maxR),
        plotted := if (files.foldl (stepFile m enc) initState).tables.isEmpty
          then none
          else some ((files.foldl (stepFile m enc) initState).tables.zip
            (files.foldl (stepFile m enc) initState).labels),
        noDataWarning := (files.foldl (stepFile m enc) initState).tables.isEmpty,
        workbook := some (save_to_excel
          (files.foldl (stepFile m enc) initState).tables
          (files.foldl (stepFile m enc) initState).labels),
        uploadWarning := false } := by
  unfold processFiles
  rw [if_neg (by simpa using h)]

theorem processFiles_tables {files : List UploadedFile} {m : SymbolMap}
    {enc : EncodingMode} (h : files ≠ []) :
    (processFiles files m enc).tables = tablesOf m enc files := by
  rw [processFiles_eq h]
  simpa using foldl_stepFile_tables m enc files initState

theorem processFiles_errors {files : List UploadedFile} {m : SymbolMap}
    {enc : EncodingMode} (h : files ≠ []) :
    (processFiles files m enc).errors = errorsOf m enc files := by
  rw [processFiles_eq h]
  simpa using foldl_stepFile_errors m enc files initState

theorem tablesOf_append (m : SymbolMap) (enc : EncodingMode)
    (a b : List UploadedFile) :
    tablesOf m enc (a ++ b) = tablesOf m enc a ++ tablesOf m enc b := by
  simp [tablesOf]

theorem errorsOf_append (m : SymbolMap) (enc : EncodingMode)
    (a b : List UploadedFile) :
    errorsOf m enc (a ++ b) = errorsOf m enc a ++ errorsOf m enc b := by
  simp [errorsOf]

theorem process_encoding_error {enc : EncodingMode} {bytes : List Nat}
    {m : SymbolMap} (henc : enc = .latin1 ∨ enc = .utf8)
    (hdec : decodeNamed enc bytes = none) :
    process_txt_file enc bytes m = .error encodingIssueMsg := by
  rcases henc with rfl | rfl
  · show processTxtFileNamed .latin1 bytes m = .error encodingIssueMsg
    unfold processTxtFileNamed
    rw [hdec]
  · show processTxtFileNamed .utf8 bytes m = .error encodingIssueMsg
    unfold processTxtFileNamed
    rw [hdec]

/-! ### Claim C6 -/

/-- Claim C6: a plain-text file processed under a named encoding whose
bytes are invalid for that encoding contributes exactly one error message
(the encoding error of lines 63-64, surfaced by the per-file handler of
lines 174-175), zero rows to the collected tables, and every sibling
plain-text file's tables and errors are exactly what they would be
without it.  The file and its siblings carry the claim's PlainText side
condition (`isPlainText`): `.odt` documents take the
structured-document branch instead. -/
theorem c6_encoding_error (m : SymbolMap) (enc : EncodingMode)
    (pre post : List UploadedFile) (f : UploadedFile)
    (hf : isPlainText f)
    (hpre : ∀ g ∈ pre, isPlainText g)
    (hpost : ∀ g ∈ post, isPlainText g)
    (henc : enc = .latin1 ∨ enc = .utf8)
    (hdec : decodeNamed enc f.bytes = none) :
    (processFiles (pre ++ f :: post) m enc).tables =
      tablesOf m enc pre ++ tablesOf m enc post ∧
    (processFiles (pre ++ f :: post) m enc).errors =
      errorsOf m enc pre ++ [fileErrorMsg f encodingIssueMsg] ++
        errorsOf m enc post := by
  have hne : pre ++ f :: post ≠ [] := by simp
  have hperr : process_txt_file enc f.bytes m = .error encodingIssueMsg :=
    process_encoding_error henc hdec
  constructor
  · rw [processFiles_tables hne, tablesOf_append]
    congr 1
    unfold tablesOf
    rw [List.filterMap_cons, hperr]
  · rw [processFiles_errors hne, errorsOf_append]
    unfold errorsOf
    rw [List.filterMap_cons, hperr]
    simp

/-- Witness for C6: an invalid UTF-8 byte (`0xFF`) in a plain-text file
between two valid plain-text sibling files under the `utf-8` encoding. -/
theorem c6_encoding_error_witness :
    isPlainText (⟨"b", [255]⟩ : UploadedFile) ∧
    decodeNamed .utf8 (⟨"b", [255]⟩ : UploadedFile).bytes = none ∧
    (processFiles ([⟨"g", strBytes "1 2"⟩] ++ (⟨"b", [255]⟩ : UploadedFile) ::
        [⟨"h", strBytes "3 4"⟩]) default_symbol_map .utf8).tables =
      tablesOf default_symbol_map .utf8 [⟨"g", strBytes "1 2"⟩] ++
        tablesOf default_symbol_map .utf8 [⟨"h", strBytes "3 4"⟩] ∧
    (processFiles ([⟨"g", strBytes "1 2"⟩] ++ (⟨"b", [255]⟩ : UploadedFile) ::
        [⟨"h", strBytes "3 4"⟩]) default_symbol_map .utf8).errors =
      errorsOf default_symbol_map .utf8 [⟨"g", strBytes "1 2"⟩] ++
        [fileErrorMsg ⟨"b", [255]⟩ encodingIssueMsg] ++
        errorsOf default_symbol_map .utf8 [⟨"h", strBytes "3 4"⟩] :=
  have hdec : decodeNamed .utf8 (⟨"b", [255]⟩ : UploadedFile).bytes = none := by
    decide
  have h := c6_encoding_error default_symbol_map .utf8
    [⟨"g", strBytes "1 2"⟩] [⟨"h", strBytes "3 4"⟩] ⟨"b", [255]⟩
    (by decide) (by decide) (by decide) (Or.inr rfl) hdec
  ⟨by decide, hdec, h.1, h.2⟩

/-! ### Claim C8 -/

/-- Claim C8 fails on the code (labels and frames zip out of step):
`file_labels` receives a label for every upload (line 129), but
`all_dataframes` only receives frames of successful, non-empty files
(line 167), and lines 191 and 72 pair them with `zip`.  Here file "A"
yields no rows (both tokens non-numeric) while file "B" yields one row;
the workbook pairs B's data with A's label. -/
theorem c8_label_misalignment :
    (processFiles [⟨"A", strBytes "x y"⟩, ⟨"B", strBytes "1 2"⟩]
        default_symbol_map .custom).labels = ["A", "B"] ∧
    (processFiles [⟨"A", strBytes "x y"⟩, ⟨"B", strBytes "1 2"⟩]
        default_symbol_map .custom).tables = [[[NumVal.fin 1, NumVal.fin 2]]] ∧
    (processFiles [⟨"A", strBytes "x y"⟩, ⟨"B", strBytes "1 2"⟩]
        default_symbol_map .custom).workbook =
      some [([[NumVal.fin 1, NumVal.fin 2]], "A")] ∧
    (processFiles [⟨"A", strBytes "x y"⟩, ⟨"B", strBytes "1 2"⟩]
        default_symbol_map .custom).plotted =
      some [([[NumVal.fin 1, NumVal.fin 2]], "A")] := by
  refine ⟨?_, ?_, ?_, ?_⟩ <;> decide

/-! ### Claim C9 -/

/-- Claim C4, as stated, is false: a single one-column table with value
500 gives `min_x = 500`, but its first-column values do not feed the
maximum — `overall_max_range` is only updated when a `Percentage` column
exists (line 171), so `max_y` falls back to the default 100.0 instead of
being 500. -/
theorem c4_bounds_counterexample :
    (processFiles [⟨"c", strBytes "500"⟩] default_symbol_map
        .custom).tables = [[[NumVal.fin 500]]] ∧
    (processFiles [⟨"c", strBytes "500"⟩] default_symbol_map
        .custom).minRange = some (NumVal.fin 500) ∧
    (processFiles [⟨"c", strBytes "500"⟩] default_symbol_map
        .custom).maxRange = some (NumVal.fin 100) := by
  refine ⟨?_, ?_, ?_⟩ <;> decide

/-- Claim C4 (amended): for a non-empty upload list of plain-text files
(no `.odt` document, whose branch keeps string frames and aborts the
bounds update), `min_x` is the minimum of all first-column values across
the collected tables and `max_y` is the maximum of all second-column
values across the tables that have a second column — one-column tables
contribute nothing to `max_y` — with the untouched bounds falling back
to 0.0 and 100.0. -/
theorem c4_bounds_amended (files : List UploadedFile) (m : SymbolMap)
    (enc : EncodingMode) (hne : files ≠ [])
    (hodt : ∀ f ∈ files, isPlainText f) :
    (processFiles files m enc).minRange =
      some (if minOverList (allFirstVals (processFiles files m enc).tables) = .pinf
        then .fin 0
        else minOverList (allFirstVals (processFiles files m enc).tables)) ∧
    (processFiles files m enc).maxRange =
      some (if maxOverList (allSecondVals (processFiles files m enc).tables) = .ninf
        then .fin 100
        else maxOverList (allSecondVals (processFiles files m enc).tables)) := by
  have hinv := foldl_stepFile_invariant m enc files initState
    (by intro t ht; cases ht) rfl rfl
  rw [processFiles_eq hne]
  simp only
  rw [hinv.2.1, hinv.2.2]
  exact ⟨rfl, rfl⟩

/-- Witness for the amended C4: two two-column files plus one one-column
file; the bounds equal the minimum of the joined first columns and the
maximum of the joined second columns of the two-column tables only. -/
theorem c4_bounds_amended_witness :
    (processFiles [⟨"a", strBytes "190 85\n400 90"⟩,
        ⟨"b", strBytes "300 95\n1100 99"⟩, ⟨"c", strBytes "150"⟩]
        default_symbol_map .custom).minRange = some (NumVal.fin 150) ∧
    (processFiles [⟨"a", strBytes "190 85\n400 90"⟩,
        ⟨"b", strBytes "300 95\n1100 99"⟩, ⟨"c", strBytes "150"⟩]
        default_symbol_map .custom).maxRange = some (NumVal.fin 99) :=
  have h := c4_bounds_amended [⟨"a", strBytes "190 85\n400 90"⟩,
    ⟨"b", strBytes "300 95\n1100 99"⟩, ⟨"c", strBytes "150"⟩]
    default_symbol_map .custom (by decide) (by decide)
  ⟨h.1.trans (by decide), h.2.trans (by decide)⟩
